import Mathlib

/-!
Verification of the PaletteGenerator recolor engine (`src/recolor.py`) and
hex color serialization (`src/palettes.py`), as a shallow embedding.

A pixel is four 8-bit channels (R, G, B, A); `recolor.py` first converts the
input to RGBA, so the embedding takes images that are already 4-channel.
Python's per-invocation dictionary `color_map` (built by iterating
`zip(source_palette, target_palette)` with overwrite-on-insert) is embedded as
a left fold of single-key updates over the zipped palettes, starting from the
empty map, represented as a function `Color → Option Color`.
-/

set_option autoImplicit false

/-- One RGBA pixel: four 8-bit channels as produced by `image.convert("RGBA")`. -/
structure RGBA where
  r : Nat
  g : Nat
  b : Nat
  a : Nat
  deriving DecidableEq

/-- An RGB triple, the palette entry type (`Tuple[int, int, int]` in the source). -/
abbrev Color := Nat × Nat × Nat

/-- A decoded bitmap: dimensions plus pixel access, the counterpart of a PIL
image in `"RGBA"` mode.  `px x y` is `pixels[x, y]`. -/
structure Image where
  width : Nat
  height : Nat
  px : Nat → Nat → RGBA

/-- One iteration of the map-building loop: `color_map[source_color] = target_color`,
i.e. a single-key overwrite of the dictionary `m` with the pair `p`. -/
def dictStep (m : Color → Option Color) (p : Color × Color) : Color → Option Color :=
  fun c => if c = p.1 then some p.2 else m c

/-- The dictionary built by
`for source_color, target_color in zip(source_palette, target_palette): color_map[source_color] = target_color`,
starting from the empty dict, read back as a lookup function. -/
def build_color_map (source_palette target_palette : List Color) : Color → Option Color :=
  (List.zip source_palette target_palette).foldl dictStep (fun _ => none)

/-- The (R, G, B) lookup key extracted from a pixel (`rgb = (r, g, b)` in the source). -/
def rgbOf (p : RGBA) : Color := (p.r, p.g, p.b)

/-- Embedding of `recolor_image`: every pixel whose RGB key is in the color map
is replaced by the target RGB with the source alpha; all other pixels are
copied unchanged.  The output has the input's dimensions. -/
def recolor_image (image : Image) (source_palette target_palette : List Color) : Image :=
  let color_map := build_color_map source_palette target_palette
  { width := image.width
    height := image.height
    px := fun x y =>
      let current_pixel := image.px x y
      match color_map (current_pixel.r, current_pixel.g, current_pixel.b) with
      | some new_rgb => ⟨new_rgb.1, new_rgb.2.1, new_rgb.2.2, current_pixel.a⟩
      | none => current_pixel }

/-- Embedding of `create_emissive_texture`: matched pixels get the target RGB
with the source alpha; all other pixels keep the transparent-black value
`(0, 0, 0, 0)` the output image is initialized with. -/
def create_emissive_texture (image : Image) (source_palette target_palette : List Color) : Image :=
  let color_map := build_color_map source_palette target_palette
  { width := image.width
    height := image.height
    px := fun x y =>
      let current_pixel := image.px x y
      match color_map (current_pixel.r, current_pixel.g, current_pixel.b) with
      | some new_rgb => ⟨new_rgb.1, new_rgb.2.1, new_rgb.2.2, current_pixel.a⟩
      | none => ⟨0, 0, 0, 0⟩ }

/-- Last-occurrence association lookup: the value paired with the last
occurrence of `c` as a key in `l`, if any.  This is the specification the
dictionary fold is proved equal to. -/
def lookupLast (l : List (Color × Color)) (c : Color) : Option Color :=
  match l with
  | [] => none
  | p :: rest =>
    match lookupLast rest c with
    | some v => some v
    | none => if c = p.1 then some p.2 else none

theorem foldl_dictStep_eq (l : List (Color × Color)) (m : Color → Option Color) (c : Color) :
    l.foldl dictStep m c =
      match lookupLast l c with
      | some v => some v
      | none => m c := by
  induction l generalizing m with
  | nil => rfl
  | cons p rest ih =>
    show rest.foldl dictStep (dictStep m p) c = _
    rw [ih, lookupLast]
    cases h : lookupLast rest c with
    | some v => rfl
    | none =>
      show (if c = p.1 then some p.2 else m c) = _
      by_cases hc : c = p.1
      · rw [if_pos hc, if_pos hc]
      · rw [if_neg hc, if_neg hc]

theorem build_color_map_eq (sp tp : List Color) (c : Color) :
    build_color_map sp tp c = lookupLast (List.zip sp tp) c := by
  unfold build_color_map
  rw [foldl_dictStep_eq]
  cases lookupLast (List.zip sp tp) c <;> rfl

theorem lookupLast_eq_none (l : List (Color × Color)) (c : Color)
    (h : ∀ p ∈ l, p.1 ≠ c) : lookupLast l c = none := by
  induction l with
  | nil => rfl
  | cons p rest ih =>
    have hp : p.1 ≠ c := h p (List.mem_cons_self p rest)
    have hrest : lookupLast rest c = none :=
      ih (fun q hq => h q (List.mem_cons_of_mem p hq))
    simp [lookupLast, hrest]
    intro hc
    exact absurd hc.symm hp

theorem lookupLast_mem (l : List (Color × Color)) (c v : Color)
    (h : lookupLast l c = some v) : (c, v) ∈ l := by
  induction l with
  | nil => simp [lookupLast] at h
  | cons p rest ih =>
    rw [lookupLast] at h
    cases hr : lookupLast rest c with
    | some w =>
      rw [hr] at h
      cases h
      exact List.mem_cons_of_mem p (ih hr)
    | none =>
      rw [hr] at h
      by_cases hc : c = p.1
      · rw [if_pos hc] at h
        cases h
        have : p = (c, p.2) := by
          cases p
          simp_all
        rw [this]
        exact List.mem_cons_self _ _
      · rw [if_neg hc] at h
        cases h

theorem lookupLast_of_mem_nodup (l : List (Color × Color)) (a b : Color)
    (hnd : (l.map Prod.fst).Nodup) (hab : (a, b) ∈ l) :
    lookupLast l a = some b := by
  induction l with
  | nil => cases hab
  | cons p rest ih =>
    obtain ⟨p1, p2⟩ := p
    rw [List.map_cons, List.nodup_cons] at hnd
    rcases List.mem_cons.mp hab with heq | hmem
    · injection heq with h1 h2
      subst h1
      subst h2
      have hnone : lookupLast rest a = none := by
        apply lookupLast_eq_none
        intro q hq hqa
        exact hnd.1 (List.mem_map.mpr ⟨q, hq, hqa⟩)
      rw [lookupLast, hnone]
      show (if a = a then some b else none) = some b
      rw [if_pos rfl]
    · rw [lookupLast, ih hnd.2 hmem]

theorem map_fst_zip_take {α β : Type} :
    ∀ (l₁ : List α) (l₂ : List β), (List.zip l₁ l₂).map Prod.fst = l₁.take l₂.length := by
  intro l₁
  induction l₁ with
  | nil => intro l₂; simp
  | cons x l₁ ih =>
    intro l₂
    cases l₂ with
    | nil => simp
    | cons y l₂ => simp [List.zip_cons_cons, ih l₂]

theorem take_min {α : Type} :
    ∀ (l : List α) (n : Nat), l.take (min l.length n) = l.take n := by
  intro l
  induction l with
  | nil => intro n; simp
  | cons x l ih =>
    intro n
    cases n with
    | zero => simp
    | succ m => simp [Nat.succ_min_succ, ih m]

theorem zip_forall_fst :
    ∀ (sp tp : List Color) (c : Color),
      (∀ j, j < min sp.length tp.length → sp[j]? ≠ some c) →
      ∀ p ∈ List.zip sp tp, p.1 ≠ c := by
  intro sp
  induction sp with
  | nil => intro tp c _ p hp; simp at hp
  | cons s sp ih =>
    intro tp c h p hp
    cases tp with
    | nil => simp at hp
    | cons t tp =>
      rw [List.zip_cons_cons] at hp
      rcases List.mem_cons.mp hp with rfl | hmem
      · intro hc
        have hb : 0 < min (s :: sp).length (t :: tp).length := by
          have h1 := List.length_cons s sp
          have h2 := List.length_cons t tp
          omega
        exact h 0 hb (by simp only [List.getElem?_cons_zero, Option.some.injEq]; exact hc)
      · refine ih tp c (fun j hj => ?_) p hmem
        have hb : j + 1 < min (s :: sp).length (t :: tp).length := by
          have h1 := List.length_cons s sp
          have h2 := List.length_cons t tp
          omega
        have := h (j + 1) hb
        simpa using this

theorem lookupLast_zip_last_occ :
    ∀ (sp tp : List Color) (i : Nat) (c t : Color),
      sp[i]? = some c → tp[i]? = some t →
      (∀ j, i < j → j < min sp.length tp.length → sp[j]? ≠ some c) →
      lookupLast (List.zip sp tp) c = some t := by
  intro sp
  induction sp with
  | nil => intro tp i c t hs _ _; simp at hs
  | cons s sp ih =>
    intro tp i c t hs ht h
    cases tp with
    | nil => simp at ht
    | cons t' tp =>
      rw [List.zip_cons_cons]
      cases i with
      | zero =>
        simp at hs ht
        have hnone : lookupLast (List.zip sp tp) c = none := by
          apply lookupLast_eq_none
          apply zip_forall_fst
          intro j hj
          have hb : j + 1 < min (s :: sp).length (t' :: tp).length := by
            have h1 := List.length_cons s sp
            have h2 := List.length_cons t' tp
            omega
          have := h (j + 1) (by omega) hb
          simpa using this
        rw [lookupLast, hnone]
        show (if c = (s, t').1 then some (s, t').2 else none) = some t
        simp [hs, ht]
      | succ i' =>
        simp at hs ht
        have hshift : ∀ j, i' < j → j < min sp.length tp.length → sp[j]? ≠ some c := by
          intro j h1 h2
          have hb : j + 1 < min (s :: sp).length (t' :: tp).length := by
            have e1 := List.length_cons s sp
            have e2 := List.length_cons t' tp
            omega
          have := h (j + 1) (by omega) hb
          simpa using this
        rw [lookupLast, ih tp i' c t hs ht hshift]

theorem mem_zip_swap :
    ∀ (l₁ l₂ : List Color) (a b : Color),
      (a, b) ∈ List.zip l₁ l₂ → (b, a) ∈ List.zip l₂ l₁ := by
  intro l₁
  induction l₁ with
  | nil => intro l₂ a b h; simp at h
  | cons x l₁ ih =>
    intro l₂ a b h
    cases l₂ with
    | nil => simp at h
    | cons y l₂ =>
      rw [List.zip_cons_cons] at h ⊢
      rcases List.mem_cons.mp h with heq | hmem
      · injection heq with h1 h2
        subst h1
        subst h2
        exact List.mem_cons_self _ _
      · exact List.mem_cons_of_mem _ (ih l₂ a b hmem)

theorem zip_self_eq :
    ∀ (l : List Color) (a b : Color), (a, b) ∈ List.zip l l → a = b := by
  intro l
  induction l with
  | nil => intro a b h; simp at h
  | cons x l ih =>
    intro a b h
    rw [List.zip_cons_cons] at h
    rcases List.mem_cons.mp h with heq | hmem
    · injection heq with h1 h2
      rw [h1, h2]
    · exact ih a b hmem

/-- A 1×1 test image whose single pixel is opaque (1, 0, 0). -/
def imgRed : Image := ⟨1, 1, fun _ _ => ⟨1, 0, 0, 255⟩⟩

/-- A 1×1 test image whose single pixel is opaque (5, 5, 5). -/
def imgGray : Image := ⟨1, 1, fun _ _ => ⟨5, 5, 5, 255⟩⟩

/-- A 1×1 test image whose single pixel is opaque (4, 4, 4). -/
def imgP4 : Image := ⟨1, 1, fun _ _ => ⟨4, 4, 4, 255⟩⟩

/-- Two-entry source palette for the round-trip counterexample. -/
def srcA : List Color := [(1, 0, 0), (2, 0, 0)]

/-- Two-entry target palette with an internal duplicate. -/
def tgtB : List Color := [(9, 0, 0), (9, 0, 0)]

/-- One-entry source palette. -/
def srcA1 : List Color := [(1, 0, 0)]

/-- One-entry target palette. -/
def tgtB1 : List Color := [(9, 0, 0)]

/-- One-entry target palette used for the matched-pixel witness. -/
def tgtC1 : List Color := [(3, 4, 5)]

/-- Five-entry source palette for the truncation witness. -/
def src5 : List Color := [(1, 1, 1), (2, 2, 2), (3, 3, 3), (4, 4, 4), (5, 5, 5)]

/-- Three-entry target palette for the truncation witness. -/
def tgt3 : List Color := [(6, 6, 6), (7, 7, 7), (8, 8, 8)]

/-- Source palette with a duplicated color. -/
def srcDup : List Color := [(5, 5, 5), (5, 5, 5)]

/-- Target palette paired with `srcDup`. -/
def tgtDup : List Color := [(7, 7, 7), (9, 9, 9)]

/-- Claim C1: every pixel whose (R, G, B) triple is a key of the color map
built from the two palettes is set by both `recolor_image` and
`create_emissive_texture` to (target.R, target.G, target.B, input.A), and the
output alpha equals the input pixel's alpha for both operations. -/
theorem matched_pixel_substitution (image : Image) (sp tp : List Color) (x y : Nat) (t : Color)
    (hx : x < image.width) (hy : y < image.height)
    (hm : build_color_map sp tp (rgbOf (image.px x y)) = some t) :
    (recolor_image image sp tp).px x y = ⟨t.1, t.2.1, t.2.2, (image.px x y).a⟩ ∧
    (create_emissive_texture image sp tp).px x y = ⟨t.1, t.2.1, t.2.2, (image.px x y).a⟩ ∧
    ((recolor_image image sp tp).px x y).a = (image.px x y).a ∧
    ((create_emissive_texture image sp tp).px x y).a = (image.px x y).a := by
  rw [rgbOf] at hm
  refine ⟨?_, ?_, ?_, ?_⟩ <;> simp [recolor_image, create_emissive_texture, hm]

/-- Witness for C1 at a concrete matched pixel. -/
theorem matched_pixel_substitution_witness :
    (recolor_image imgRed srcA1 tgtC1).px 0 0 = ⟨3, 4, 5, 255⟩ ∧
    (create_emissive_texture imgRed srcA1 tgtC1).px 0 0 = ⟨3, 4, 5, 255⟩ ∧
    ((recolor_image imgRed srcA1 tgtC1).px 0 0).a = 255 ∧
    ((create_emissive_texture imgRed srcA1 tgtC1).px 0 0).a = 255 :=
  matched_pixel_substitution imgRed srcA1 tgtC1 0 0 (3, 4, 5)
    (by decide) (by decide) (by decide)

/-- Claim C2: every pixel whose (R, G, B) triple is not a key of the color map
is copied byte-for-byte by `recolor_image`, while `create_emissive_texture`
leaves it at transparent black (0, 0, 0, 0). -/
theorem unmatched_pixel_passthrough (image : Image) (sp tp : List Color) (x y : Nat)
    (hx : x < image.width) (hy : y < image.height)
    (hm : build_color_map sp tp (rgbOf (image.px x y)) = none) :
    (recolor_image image sp tp).px x y = image.px x y ∧
    (create_emissive_texture image sp tp).px x y = ⟨0, 0, 0, 0⟩ := by
  rw [rgbOf] at hm
  constructor <;> simp [recolor_image, create_emissive_texture, hm]

/-- Witness for C2 at a concrete unmatched pixel. -/
theorem unmatched_pixel_passthrough_witness :
    (recolor_image imgRed srcDup tgtDup).px 0 0 = imgRed.px 0 0 ∧
    (create_emissive_texture imgRed srcDup tgtDup).px 0 0 = ⟨0, 0, 0, 0⟩ :=
  unmatched_pixel_passthrough imgRed srcDup tgtDup 0 0 (by decide) (by decide) (by decide)

/-- Claim C3: only the first `min (length sp) (length tp)` positional pairs
enter the color map; a source color that occurs only at indices at or beyond
the shorter palette's length never matches any pixel (the lookup misses,
`recolor_image` passes the pixel through, `create_emissive_texture` leaves it
transparent), and — the embedding being total — the length mismatch raises no
error. -/
theorem palette_truncation (image : Image) (sp tp : List Color) (x y : Nat)
    (hx : x < image.width) (hy : y < image.height)
    (h : rgbOf (image.px x y) ∉ sp.take (min sp.length tp.length)) :
    build_color_map sp tp (rgbOf (image.px x y)) = none ∧
    (recolor_image image sp tp).px x y = image.px x y ∧
    (create_emissive_texture image sp tp).px x y = ⟨0, 0, 0, 0⟩ := by
  have hnone : build_color_map sp tp (rgbOf (image.px x y)) = none := by
    rw [build_color_map_eq]
    apply lookupLast_eq_none
    intro p hp hpc
    apply h
    rw [take_min sp tp.length, ← map_fst_zip_take sp tp]
    exact List.mem_map.mpr ⟨p, hp, hpc⟩
  have hnone' := hnone
  rw [rgbOf] at hnone'
  exact ⟨hnone, by simp [recolor_image, hnone'], by simp [create_emissive_texture, hnone']⟩

/-- Witness for C3: a length-5 source palette against a length-3 target
palette; the color at source index 3 never matches. -/
theorem palette_truncation_witness :
    build_color_map src5 tgt3 (rgbOf (imgP4.px 0 0)) = none ∧
    (recolor_image imgP4 src5 tgt3).px 0 0 = imgP4.px 0 0 ∧
    (create_emissive_texture imgP4 src5 tgt3).px 0 0 = ⟨0, 0, 0, 0⟩ :=
  palette_truncation imgP4 src5 tgt3 0 0 (by decide) (by decide) (by decide)

/-- Claim C4: when the source palette holds the pixel's color at index `i` of
the paired prefix and at no later index of that prefix, the pairing at `i`
wins: the pixel is substituted with the target color at index `i`.  With
source palette `[C, C]` and targets `[T1, T2]` this makes a pixel of color C
map to `T2`. -/
theorem recolor_duplicate_last_wins (image : Image) (sp tp : List Color)
    (x y i : Nat) (t : Color)
    (hs : sp[i]? = some (rgbOf (image.px x y)))
    (ht : tp[i]? = some t)
    (hlast : ∀ j, i < j → j < min sp.length tp.length →
      sp[j]? ≠ some (rgbOf (image.px x y))) :
    build_color_map sp tp (rgbOf (image.px x y)) = some t ∧
    (recolor_image image sp tp).px x y = ⟨t.1, t.2.1, t.2.2, (image.px x y).a⟩ := by
  have hm : build_color_map sp tp (rgbOf (image.px x y)) = some t := by
    rw [build_color_map_eq]
    exact lookupLast_zip_last_occ sp tp i _ t hs ht hlast
  refine ⟨hm, ?_⟩
  rw [rgbOf] at hm
  simp [recolor_image, hm]

/-- Witness for C4: source palette `[C, C]`, target palette `[T1, T2]`, pixel
of color C goes to `T2`. -/
theorem recolor_duplicate_last_wins_witness :
    build_color_map srcDup tgtDup (rgbOf (imgGray.px 0 0)) = some (9, 9, 9) ∧
    (recolor_image imgGray srcDup tgtDup).px 0 0 = ⟨9, 9, 9, 255⟩ :=
  recolor_duplicate_last_wins imgGray srcDup tgtDup 0 0 1 (9, 9, 9)
    (by decide) (by decide)
    (by
      intro j h1 h2
      have e : min srcDup.length tgtDup.length = 2 := by decide
      omega)

/-- Counterexample to Claim C5 as stated: palettes `A = [(1,0,0), (2,0,0)]`
and `B = [(9,0,0), (9,0,0)]` share no color, the pixel (1,0,0) of `imgRed` is
matched in the first pass, yet the round trip returns (2,0,0,255), not the
original pixel: the duplicate inside B makes the reverse map send (9,0,0) to
the last paired source color. -/
theorem roundtrip_counterexample :
    (∀ c ∈ srcA, c ∉ tgtB) ∧
    build_color_map srcA tgtB (rgbOf (imgRed.px 0 0)) = some (9, 0, 0) ∧
    (recolor_image (recolor_image imgRed srcA tgtB) tgtB srcA).px 0 0 ≠ imgRed.px 0 0 ∧
    (recolor_image (recolor_image imgRed srcA tgtB) tgtB srcA).px 0 0 = ⟨2, 0, 0, 255⟩ := by
  decide

/-- Claim C5 as amended: with palettes A and B sharing no color and B free of
duplicates within the paired prefix, `recolor(recolor(image, A, B), B, A)`
restores every pixel matched in the first pass to its original value. -/
theorem recolor_roundtrip (image : Image) (A B : List Color) (x y : Nat) (t : Color)
    (hdisj : ∀ c ∈ A, c ∉ B)
    (hnodup : (B.take A.length).Nodup)
    (hm : build_color_map A B (rgbOf (image.px x y)) = some t) :
    (recolor_image (recolor_image image A B) B A).px x y = image.px x y := by
  have hmem : (rgbOf (image.px x y), t) ∈ List.zip A B := by
    apply lookupLast_mem
    rw [← build_color_map_eq]
    exact hm
  have hswap : (t, rgbOf (image.px x y)) ∈ List.zip B A := mem_zip_swap A B _ t hmem
  have hkeys : ((List.zip B A).map Prod.fst).Nodup := by
    rw [map_fst_zip_take]
    exact hnodup
  have hback : build_color_map B A t = some (rgbOf (image.px x y)) := by
    rw [build_color_map_eq]
    exact lookupLast_of_mem_nodup _ t _ hkeys hswap
  obtain ⟨t1, t2, t3⟩ := t
  rw [rgbOf] at hm hback
  simp [recolor_image, hm, hback]

/-- Witness for the amended C5 at a concrete matched pixel. -/
theorem recolor_roundtrip_witness :
    (recolor_image (recolor_image imgRed srcA1 tgtB1) tgtB1 srcA1).px 0 0 = imgRed.px 0 0 :=
  recolor_roundtrip imgRed srcA1 tgtB1 0 0 (9, 0, 0)
    (by decide) (by decide) (by decide)

/-- Claim C6: with element-wise equal source and target palettes,
`recolor_image` returns an image pixel-identical to the (already 4-channel)
input, with the same dimensions. -/
theorem recolor_identity_palette (image : Image) (P : List Color) (x y : Nat) :
    (recolor_image image P P).width = image.width ∧
    (recolor_image image P P).height = image.height ∧
    (recolor_image image P P).px x y = image.px x y := by
  refine ⟨rfl, rfl, ?_⟩
  cases hm : build_color_map P P (rgbOf (image.px x y)) with
  | none =>
    rw [rgbOf] at hm
    simp [recolor_image, hm]
  | some t =>
    have hm' : lookupLast (List.zip P P) (rgbOf (image.px x y)) = some t := by
      rw [← build_color_map_eq]
      exact hm
    have hct : rgbOf (image.px x y) = t := zip_self_eq P _ t (lookupLast_mem _ _ _ hm')
    rw [rgbOf] at hm hct
    simp [recolor_image, hm, ← hct]

/-- Claim C7: the transform is total — in particular with an empty source or
target palette the color map has no entries, so `recolor_image` passes every
pixel through and `create_emissive_texture` leaves every pixel transparent;
no input bitmap or palette pair makes either operation fail. -/
theorem transform_total_empty_palettes (image : Image) (sp tp : List Color) (c : Color)
    (x y : Nat) (h : sp = [] ∨ tp = []) :
    build_color_map sp tp c = none ∧
    (recolor_image image sp tp).px x y = image.px x y ∧
    (create_emissive_texture image sp tp).px x y = ⟨0, 0, 0, 0⟩ := by
  have hz : List.zip sp tp = [] := by
    rcases h with rfl | rfl
    · rfl
    · exact List.zip_nil_right
  have hmap : ∀ d : Color, build_color_map sp tp d = none := by
    intro d
    rw [build_color_map_eq, hz]
    rfl
  have h1 := hmap (rgbOf (image.px x y))
  rw [rgbOf] at h1
  exact ⟨hmap c, by simp [recolor_image, h1], by simp [create_emissive_texture, h1]⟩

/-- Witness for C7 with an empty source palette. -/
theorem transform_total_empty_palettes_witness :
    build_color_map [] tgt3 (0, 0, 0) = none ∧
    (recolor_image imgRed [] tgt3).px 0 0 = imgRed.px 0 0 ∧
    (create_emissive_texture imgRed [] tgt3).px 0 0 = ⟨0, 0, 0, 0⟩ :=
  transform_total_empty_palettes imgRed [] tgt3 (0, 0, 0) 0 0 (Or.inl rfl)

/-- Claim C8: both operations return a bitmap with the input's width and
height. -/
theorem dimension_preservation (image : Image) (sp tp : List Color) :
    (recolor_image image sp tp).width = image.width ∧
    (recolor_image image sp tp).height = image.height ∧
    (create_emissive_texture image sp tp).width = image.width ∧
    (create_emissive_texture image sp tp).height = image.height :=
  ⟨rfl, rfl, rfl, rfl⟩

/-- One uppercase hexadecimal digit character, as produced by the `X` format
conversion: `0`–`9` (codes 48–57) then `A`–`F` (codes 65–70). -/
def hexDigit (n : Nat) : Char :=
  if n < 10 then Char.ofNat (48 + n) else Char.ofNat (55 + n)

/-- Digit accumulator for `toHexChars`; the fuel argument (as in core's
`Nat.toDigits`) makes the recursion structural, and `fuel = n + 1` always
suffices because `16 ^ (n + 1) > n`. -/
def toHexCharsAux (fuel : Nat) (n : Nat) (acc : List Char) : List Char :=
  match fuel with
  | 0 => acc
  | fuel + 1 =>
    if n < 16 then hexDigit n :: acc
    else toHexCharsAux fuel (n / 16) (hexDigit (n % 16) :: acc)

/-- Uppercase hexadecimal digits of `n`, most significant first, no padding —
the digit string the `X` format conversion prints. -/
def toHexChars (n : Nat) : List Char :=
  toHexCharsAux (n + 1) n []

/-- Zero padding to width 2, as in the `02X` format specification. -/
def pad02 (cs : List Char) : List Char :=
  if cs.length < 2 then List.replicate (2 - cs.length) '0' ++ cs else cs

/-- Embedding of `rgb_to_hex`: `"#{:02X}{:02X}{:02X}".format(rgb[0], rgb[1], rgb[2])`. -/
def rgb_to_hex (rgb : Nat × Nat × Nat) : String :=
  String.mk ('#' :: (pad02 (toHexChars rgb.1) ++ pad02 (toHexChars rgb.2.1) ++
    pad02 (toHexChars rgb.2.2)))

/-- Value of one hexadecimal digit character, case-insensitive as accepted by
`int(s, 16)`; `none` on a non-digit. -/
def hexDigitVal (c : Char) : Option Nat :=
  if '0' ≤ c ∧ c ≤ '9' then some (c.toNat - 48)
  else if 'A' ≤ c ∧ c ≤ 'F' then some (c.toNat - 55)
  else if 'a' ≤ c ∧ c ≤ 'f' then some (c.toNat - 87)
  else none

/-- Embedding of `int(s, 16)` on a digit string: `none` on the empty string or
any non-digit character, otherwise the base-16 value. -/
def pyIntHex (cs : List Char) : Option Nat :=
  match cs with
  | [] => none
  | _ =>
    cs.foldl (fun acc c => acc.bind (fun a => (hexDigitVal c).map (fun d => 16 * a + d)))
      (some 0)

/-- Embedding of `hex_to_rgb`: strip every leading `#` (`lstrip('#')`), then
parse the slices `[0:2]`, `[2:4]`, `[4:6]` with `int(-, 16)`. -/
def hex_to_rgb (hex_color : String) : Option (Nat × Nat × Nat) :=
  let cs := hex_color.toList.dropWhile (fun c => c == '#')
  match pyIntHex ((cs.drop 0).take 2), pyIntHex ((cs.drop 2).take 2),
      pyIntHex ((cs.drop 4).take 2) with
  | some r, some g, some b => some (r, g, b)
  | _, _, _ => none

/-- A character is an uppercase hexadecimal digit. -/
def isUpperHexDigit (c : Char) : Prop :=
  ('0' ≤ c ∧ c ≤ '9') ∨ ('A' ≤ c ∧ c ≤ 'F')

instance (c : Char) : Decidable (isUpperHexDigit c) := by
  unfold isUpperHexDigit
  infer_instance

/-- ASCII lowercasing of a single character. -/
def lowerChar (c : Char) : Char :=
  if 'A' ≤ c ∧ c ≤ 'Z' then Char.ofNat (c.toNat + 32) else c

/-- Lowercase `c` when the flag is set; used to quantify over all upper/lower
case variants of a hex string. -/
def lowerIf (b : Bool) (c : Char) : Char :=
  if b then lowerChar c else c

/-- The two hex digit characters of a byte value, as printed by `02X`. -/
def byteHexDigits (n : Nat) : List Char :=
  [hexDigit (n / 16), hexDigit (n % 16)]

/-- The six hex digit characters of an RGB triple, as printed by `rgb_to_hex`. -/
def canonHexDigits (r g b : Nat) : List Char :=
  byteHexDigits r ++ byteHexDigits g ++ byteHexDigits b

theorem hexDigitVal_hexDigit : ∀ d, d < 16 → hexDigitVal (hexDigit d) = some d := by
  decide

theorem hexDigitVal_lowerChar : ∀ d, d < 16 → hexDigitVal (lowerChar (hexDigit d)) = some d := by
  decide

theorem hexDigit_ne_hash : ∀ d, d < 16 → hexDigit d ≠ '#' ∧ lowerChar (hexDigit d) ≠ '#' := by
  decide

theorem isUpperHexDigit_hexDigit : ∀ d, d < 16 → isUpperHexDigit (hexDigit d) := by
  decide

theorem hexDigitVal_lowerIf (b : Bool) (d : Nat) (h : d < 16) :
    hexDigitVal (lowerIf b (hexDigit d)) = some d := by
  cases b with
  | false => rw [lowerIf, if_neg (by simp)]; exact hexDigitVal_hexDigit d h
  | true => rw [lowerIf, if_pos rfl]; exact hexDigitVal_lowerChar d h

theorem lowerIf_ne_hash (b : Bool) (d : Nat) (h : d < 16) :
    lowerIf b (hexDigit d) ≠ '#' := by
  cases b with
  | false => rw [lowerIf, if_neg (by simp)]; exact (hexDigit_ne_hash d h).1
  | true => rw [lowerIf, if_pos rfl]; exact (hexDigit_ne_hash d h).2

theorem pad02_toHexChars (n : Nat) (h : n ≤ 255) :
    pad02 (toHexChars n) = byteHexDigits n := by
  rw [byteHexDigits]
  by_cases h16 : n < 16
  · have e0 : toHexChars n = [hexDigit n] := by
      rw [toHexChars, toHexCharsAux, if_pos h16]
    rw [e0, pad02]
    have e1 : n / 16 = 0 := Nat.div_eq_of_lt h16
    have e2 : n % 16 = n := Nat.mod_eq_of_lt h16
    rw [e1, e2]
    simp
    rfl
  · have h1 : n / 16 < 16 := by omega
    obtain ⟨m, rfl⟩ : ∃ m, n = m + 1 := ⟨n - 1, by omega⟩
    have e0 : toHexChars (m + 1) =
        [hexDigit ((m + 1) / 16), hexDigit ((m + 1) % 16)] := by
      rw [toHexChars, toHexCharsAux, if_neg h16, toHexCharsAux, if_pos h1]
    rw [e0, pad02]
    simp

theorem pyIntHex_pair (bb1 bb2 : Bool) (n : Nat) (h : n ≤ 255) :
    pyIntHex [lowerIf bb1 (hexDigit (n / 16)), lowerIf bb2 (hexDigit (n % 16))] = some n := by
  have d1 : n / 16 < 16 := by omega
  have d2 : n % 16 < 16 := by omega
  simp [pyIntHex, hexDigitVal_lowerIf bb1 _ d1, hexDigitVal_lowerIf bb2 _ d2]
  omega

theorem hex_to_rgb_sixDigits (c1 c2 c3 c4 c5 c6 : Char) (r g b : Nat)
    (h1 : (c1 == '#') = false)
    (e1 : pyIntHex [c1, c2] = some r)
    (e2 : pyIntHex [c3, c4] = some g)
    (e3 : pyIntHex [c5, c6] = some b) :
    hex_to_rgb (String.mk [c1, c2, c3, c4, c5, c6]) = some (r, g, b) ∧
    hex_to_rgb (String.mk ('#' :: [c1, c2, c3, c4, c5, c6])) = some (r, g, b) := by
  have hdw : List.dropWhile (fun c => c == '#') [c1, c2, c3, c4, c5, c6] =
      [c1, c2, c3, c4, c5, c6] := by
    rw [List.dropWhile_cons, h1]
    simp
  constructor
  · simp only [hex_to_rgb]
    rw [show (String.mk [c1, c2, c3, c4, c5, c6]).toList = [c1, c2, c3, c4, c5, c6] from rfl,
      hdw]
    simp only [List.drop_zero, List.drop_succ_cons, List.take_succ_cons, List.take_zero]
    rw [e1, e2, e3]
  · simp only [hex_to_rgb]
    rw [show (String.mk ('#' :: [c1, c2, c3, c4, c5, c6])).toList =
        '#' :: [c1, c2, c3, c4, c5, c6] from rfl]
    rw [show List.dropWhile (fun c => c == '#') ('#' :: [c1, c2, c3, c4, c5, c6]) =
        List.dropWhile (fun c => c == '#') [c1, c2, c3, c4, c5, c6] from by
      rw [List.dropWhile_cons]
      simp]
    rw [hdw]
    simp only [List.drop_zero, List.drop_succ_cons, List.take_succ_cons, List.take_zero]
    rw [e1, e2, e3]

/-- Claim C10: for components in 0..255, `rgb_to_hex` yields `'#'` followed by
exactly six uppercase hexadecimal digits, and `hex_to_rgb` recovers the triple
from that string as well as from every per-character upper/lower-case variant
of it, with or without the leading `'#'`. -/
theorem hex_serialization_roundtrip (r g b : Nat)
    (hr : r ≤ 255) (hg : g ≤ 255) (hb : b ≤ 255)
    (b1 b2 b3 b4 b5 b6 wh : Bool) :
    (rgb_to_hex (r, g, b)).toList = '#' :: canonHexDigits r g b ∧
    (canonHexDigits r g b).length = 6 ∧
    (∀ c ∈ canonHexDigits r g b, isUpperHexDigit c) ∧
    hex_to_rgb (rgb_to_hex (r, g, b)) = some (r, g, b) ∧
    hex_to_rgb (String.mk ((if wh then ['#'] else []) ++
      [lowerIf b1 (hexDigit (r / 16)), lowerIf b2 (hexDigit (r % 16)),
       lowerIf b3 (hexDigit (g / 16)), lowerIf b4 (hexDigit (g % 16)),
       lowerIf b5 (hexDigit (b / 16)), lowerIf b6 (hexDigit (b % 16))])) = some (r, g, b) := by
  have d1 : r / 16 < 16 := by omega
  have hstr : rgb_to_hex (r, g, b) = String.mk ('#' :: canonHexDigits r g b) := by
    show String.mk ('#' :: (pad02 (toHexChars r) ++ pad02 (toHexChars g) ++
      pad02 (toHexChars b))) = _
    rw [pad02_toHexChars r hr, pad02_toHexChars g hg, pad02_toHexChars b hb]
    rfl
  have hvar := hex_to_rgb_sixDigits
    (lowerIf b1 (hexDigit (r / 16))) (lowerIf b2 (hexDigit (r % 16)))
    (lowerIf b3 (hexDigit (g / 16))) (lowerIf b4 (hexDigit (g % 16)))
    (lowerIf b5 (hexDigit (b / 16))) (lowerIf b6 (hexDigit (b % 16))) r g b
    (beq_eq_false_iff_ne.mpr (lowerIf_ne_hash b1 _ d1))
    (pyIntHex_pair b1 b2 r hr) (pyIntHex_pair b3 b4 g hg) (pyIntHex_pair b5 b6 b hb)
  have hcanon := hex_to_rgb_sixDigits
    (hexDigit (r / 16)) (hexDigit (r % 16)) (hexDigit (g / 16)) (hexDigit (g % 16))
    (hexDigit (b / 16)) (hexDigit (b % 16)) r g b
    (beq_eq_false_iff_ne.mpr (hexDigit_ne_hash _ d1).1)
    (pyIntHex_pair false false r hr) (pyIntHex_pair false false g hg)
    (pyIntHex_pair false false b hb)
  refine ⟨by rw [hstr]; rfl, rfl, ?_, ?_, ?_⟩
  · intro c hc
    simp [canonHexDigits, byteHexDigits] at hc
    rcases hc with rfl | rfl | rfl | rfl | rfl | rfl <;>
      apply isUpperHexDigit_hexDigit <;> omega
  · rw [hstr]
    exact hcanon.2
  · cases wh with
    | false => exact hvar.1
    | true => exact hvar.2

/-- Witness for C10 at (251, 202, 151) with a mixed-case, hash-free variant. -/
theorem hex_serialization_roundtrip_witness :
    (rgb_to_hex (251, 202, 151)).toList = '#' :: canonHexDigits 251 202 151 ∧
    (canonHexDigits 251 202 151).length = 6 ∧
    (∀ c ∈ canonHexDigits 251 202 151, isUpperHexDigit c) ∧
    hex_to_rgb (rgb_to_hex (251, 202, 151)) = some (251, 202, 151) ∧
    hex_to_rgb (String.mk ((if false then ['#'] else []) ++
      [lowerIf true (hexDigit (251 / 16)), lowerIf false (hexDigit (251 % 16)),
       lowerIf true (hexDigit (202 / 16)), lowerIf false (hexDigit (202 % 16)),
       lowerIf false (hexDigit (151 / 16)), lowerIf true (hexDigit (151 % 16))])) =
      some (251, 202, 151) :=
  hex_serialization_roundtrip 251 202 151 (by decide) (by decide) (by decide)
    true false true false false true false
